import Mathlib

/-!
Verification development for the markdown-vega-preview extension.

The repository ships two variants of the renderer: `src/extension.ts`
(the original, a plain svg/promise cache) and the optimized variant
(the unnamed source file, with an access-counted, TTL- and
capacity-bounded registry, in-flight deduplication and a render
timeout).  Both are embedded below.

The optimized variant is embedded as a state machine: the synchronous
fence-rule invocation (`Mvp.lookup` / `Mvp.fenceV2`), the settlement
callbacks of the raced render promise (`Mvp.settleOk`, `Mvp.settleErr`,
`Mvp.settleTimeout`) and the eviction pass (`Mvp.cleanupCache`) are
the atomic events; JavaScript runs them without interleaving, so a
trace of events (`Mvp.run`) is a faithful model of an execution.
The external md5 digest is a parameter of the embedding, and the
external render/compile collaborators are abstracted by the settlement
events (their results are the delivered strings).

JavaScript `Map` iterates in insertion order, `set` replaces in place,
and `delete` removes; it is embedded as an association list with the
corresponding operations (`Mvp.mget`, `Mvp.mset`, `Mvp.mdel`).
`Array.prototype.sort` is stable, and a stable sort's output is the
unique sorted permutation in which tied elements keep their input
order, so any stable sort with the translated comparator is an exact
model; `List.insertionSort` (which is stable) is used because it is
structurally recursive and therefore evaluates inside the kernel.
-/

set_option maxRecDepth 4000

namespace Mvp

/-- The two fenced-block languages handled by the extension:
`vega` renders directly, `vega-lite` is compiled to vega first. -/
inductive Lang
  | vega
  | vegaLite
deriving DecidableEq

/-- The language tag as it appears in the fence info string. -/
def langTag : Lang → String
  | .vega => "vega"
  | .vegaLite => "vega-lite"

/-- Maximum registry size (`CACHE_MAX_SIZE = 20`). -/
def CACHE_MAX_SIZE : Nat := 20

/-- Time-to-live of a registry entry in milliseconds (`CACHE_TTL`, 15 minutes). -/
def CACHE_TTL : Int := 15 * 60 * 1000

/-- Render timeout in milliseconds (`RENDER_TIMEOUT`, 300 seconds). -/
def RENDER_TIMEOUT : Int := 300000

/-- Soft threshold for the opportunistic cleanup
(`CACHE_MAX_SIZE * 1.5`; exact, since 20 * 1.5 = 30). -/
def CLEANUP_TRIGGER : Nat := CACHE_MAX_SIZE * 3 / 2

/-- The string fed to the digest by the optimized `getContentHash`:
the template literal `v1:${lang}:${content}`. -/
def hashInput (lang : Lang) (content : String) : String :=
  "v1:" ++ langTag lang ++ ":" ++ content

/-- The optimized `getContentHash(content, lang)`: an md5 hex digest of
`v1:${lang}:${content}`.  The digest itself is the external crypto
collaborator, so it is a parameter `md5` of the embedding. -/
def getContentHash (md5 : String → String) (content : String) (lang : Lang) : String :=
  md5 (hashInput lang content)

/-- A registry entry of the optimized variant (`CacheEntry`):
`svg` is the finished artifact (`null` while pending), `promiseId`
identifies the in-flight computation (`null` once settled),
`timestamp` is `lastTouched`, `accessCount` the use counter. -/
structure CacheEntry where
  svg : Option String
  promiseId : Option Nat
  timestamp : Int
  accessCount : Nat
deriving DecidableEq

/-- Association-list reading of `Map.get`. -/
def mget {α : Type} : List (String × α) → String → Option α
  | [], _ => none
  | p :: ps, k => if p.1 == k then some p.2 else mget ps k

/-- Association-list reading of `Map.set`: replace in place if the key
is present (keeping insertion order), otherwise append. -/
def mset {α : Type} : List (String × α) → String → α → List (String × α)
  | [], k, v => [(k, v)]
  | p :: ps, k, v => if p.1 == k then (k, v) :: ps else p :: mset ps k v

/-- Association-list reading of `Map.delete`. -/
def mdel {α : Type} (m : List (String × α)) (k : String) : List (String × α) :=
  m.filter (fun p => p.1 != k)

/-- The registry map of the optimized variant. -/
abbrev CacheMap := List (String × CacheEntry)

/-- The TTL test `now - entry.timestamp > CACHE_TTL` used by `cleanupCache`. -/
def entryExpired (now : Int) (e : CacheEntry) : Bool :=
  decide (CACHE_TTL < now - e.timestamp)

/-- The `cleanupCache` comparator, turned into a boolean "ranks at least
as high" relation: the JavaScript comparator returns
`b.accessCount - a.accessCount` when the counts differ and
`b.timestamp - a.timestamp` otherwise, i.e. it sorts by access count
descending, then timestamp descending. -/
def rankLe (a b : String × CacheEntry) : Bool :=
  if a.2.accessCount = b.2.accessCount then decide (b.2.timestamp ≤ a.2.timestamp)
  else decide (b.2.accessCount < a.2.accessCount)

/-- The eviction pass `cleanupCache` of the optimized variant:
return immediately when at most `CACHE_MAX_SIZE` entries are present;
otherwise delete every TTL-expired entry, and if more than
`CACHE_MAX_SIZE` unexpired entries remain, sort them by
`(accessCount desc, timestamp desc)` and delete all beyond the first
`CACHE_MAX_SIZE`. -/
def cleanupCache (now : Int) (m : CacheMap) : CacheMap :=
  if m.length ≤ CACHE_MAX_SIZE then m
  else
    let validEntries := m.filter (fun p => !entryExpired now p.2)
    let afterTtl := m.foldl (fun acc p => if entryExpired now p.2 then mdel acc p.1 else acc) m
    if CACHE_MAX_SIZE < validEntries.length then
      ((validEntries.insertionSort (fun a b => rankLe a b = true)).drop CACHE_MAX_SIZE).foldl
        (fun acc p => mdel acc p.1) afterTtl
    else afterTtl

/-- An in-flight raced render computation (`Promise.race` of the render
function and the timeout): `settled` records whether the race has
already settled, in which case later deliveries are ignored. -/
structure Comp where
  hash : String
  lang : Lang
  startTime : Int
  settled : Bool
deriving DecidableEq

/-- The mutable state of the optimized variant: the registry map, the
in-flight computations (indexed by position), the log of render-function
invocations (one hash per invocation of `renderFn()`), and the log of
`markdown.preview.refresh` command invocations. -/
structure St where
  cache : CacheMap
  comps : List Comp
  renderLog : List String
  refreshLog : List String
deriving DecidableEq

/-- The state at activation: everything empty. -/
def St.empty : St := ⟨[], [], [], []⟩

/-- `getOrCreateRenderPromise(hash, renderFn)`: if the entry holds an
in-flight promise, return it; otherwise invoke `renderFn()` inside a
`Promise.race` against the timeout, store a fresh pending entry with
`accessCount = 1`, and return the new computation. -/
def getOrCreateRenderPromise (st : St) (hash : String) (lang : Lang) (now : Int) : Nat × St :=
  match (mget st.cache hash).bind (fun e => e.promiseId) with
  | some cid => (cid, st)
  | none =>
      let cid := st.comps.length
      (cid,
        { st with
          cache := mset st.cache hash ⟨none, some cid, now, 1⟩
          comps := st.comps ++ [⟨hash, lang, now, false⟩]
          renderLog := st.renderLog ++ [hash] })

/-- The synchronous response of one fence-rule invocation. -/
inductive Output
  | figure (svg : String)
  | rendering (lang : Lang)
  | loading (lang : Lang)
  | invalid (lang : String) (msg : String)
deriving DecidableEq

/-- The `vega-figure` wrapper markup. -/
def figureMarkup (svg : String) : String :=
  "<figure class=\"vega-figure\">" ++ svg ++ "</figure>"

/-- The `vega-loading` markup returned on a pending cache hit. -/
def renderingMarkup (lang : String) : String :=
  "<figure class=\"vega-loading\">Rendering " ++ lang ++ " chart...</figure>"

/-- The `vega-loading` markup returned when a render is first started. -/
def loadingMarkup (lang : String) : String :=
  "<figure class=\"vega-loading\">Loading " ++ lang ++ " chart...</figure>"

/-- The `vega-error` markup of the catch-all handler of the fence rule. -/
def invalidMarkup (lang msg : String) : String :=
  "<div class=\"vega-error\">Invalid " ++ lang ++ " spec: " ++ msg ++ "</div>"

/-- The exact markup string of each synchronous response. -/
def markup : Output → String
  | .figure svg => figureMarkup svg
  | .rendering lang => renderingMarkup (langTag lang)
  | .loading lang => loadingMarkup (langTag lang)
  | .invalid lang msg => invalidMarkup lang msg

/-- The error artifact stored by the `.catch` settlement handler:
`<div class="vega-error">${err.message}</div>`. -/
def errorArtifact (msg : String) : String :=
  "<div class=\"vega-error\">" ++ msg ++ "</div>"

/-- One synchronous invocation of the optimized fence rule for a
vega/vega-lite block, after the language check (the registry part of
the rule).  On a hit, `lastTouched` and `accessCount` are updated and
the entry's `svg` decides the response (note the JavaScript truthiness
test `if (cacheEntry.svg)`: an empty string behaves like a missing
result).  On a miss, the opportunistic cleanup may run, then
`getOrCreateRenderPromise` starts the computation and the loading
placeholder is returned.  `jsonc.parse` is fault-tolerant (it does not
throw), and the parsed spec only feeds the abstracted renderer, so the
parse step has no observable effect in the model. -/
def lookup (md5 : String → String) (st : St) (lang : Lang) (content : String) (now : Int) :
    Output × St :=
  let hash := getContentHash md5 content lang
  match mget st.cache hash with
  | some e =>
      let e2 : CacheEntry := { e with timestamp := now, accessCount := e.accessCount + 1 }
      let st2 := { st with cache := mset st.cache hash e2 }
      match e.svg with
      | some svg => if svg = "" then (.rendering lang, st2) else (.figure svg, st2)
      | none => (.rendering lang, st2)
  | none =>
      let st1 :=
        if CLEANUP_TRIGGER < st.cache.length then { st with cache := cleanupCache now st.cache }
        else st
      let r := getOrCreateRenderPromise st1 hash lang now
      (.loading lang, r.2)

/-- The settlement handler chain attached to the raced promise of
computation `cid`.  The race settles at most once: once `settled` is
set, later deliveries are no-ops.  On settlement, the entry is
rewritten to a finished one (`promise: null`, `accessCount: 1`) and
the refresh command is invoked once. -/
def settleWith (st : St) (cid : Nat) (svg : String) (now : Int) : St :=
  match st.comps[cid]? with
  | none => st
  | some c =>
      if c.settled then st
      else
        { st with
          cache := mset st.cache c.hash ⟨some svg, none, now, 1⟩
          comps := st.comps.set cid { c with settled := true }
          refreshLog := st.refreshLog ++ [c.hash] }

/-- Delivery of a successful render result to the race (`.then` handler). -/
def settleOk (st : St) (cid : Nat) (svg : String) (now : Int) : St :=
  settleWith st cid svg now

/-- Delivery of a render/compile failure to the race (`.catch` handler,
storing the error artifact). -/
def settleErr (st : St) (cid : Nat) (msg : String) (now : Int) : St :=
  settleWith st cid (errorArtifact msg) now

/-- Firing of the timeout timer of the race: rejects with
`Error('Rendering timed out')`, handled by the `.catch` handler. -/
def settleTimeout (st : St) (cid : Nat) (now : Int) : St :=
  settleErr st cid "Rendering timed out" now

/-- The atomic events of an execution of the optimized variant. -/
inductive Event
  | look (lang : Lang) (content : String) (now : Int)
  | deliverOk (cid : Nat) (svg : String) (now : Int)
  | deliverFail (cid : Nat) (msg : String) (now : Int)
  | fireTimeout (cid : Nat) (now : Int)
  | runCleanup (now : Int)
deriving DecidableEq

/-- One atomic step; returns the new state and the synchronous response
when the event is a fence-rule invocation. -/
def step (md5 : String → String) (st : St) : Event → St × Option Output
  | .look lang content now =>
      let r := lookup md5 st lang content now
      (r.2, some r.1)
  | .deliverOk cid svg now => (settleOk st cid svg now, none)
  | .deliverFail cid msg now => (settleErr st cid msg now, none)
  | .fireTimeout cid now => (settleTimeout st cid now, none)
  | .runCleanup now => ({ st with cache := cleanupCache now st.cache }, none)

/-- Run a trace of events. -/
def run (md5 : String → String) (st : St) : List Event → St
  | [] => st
  | e :: es => run md5 (step md5 st e).1 es

/-- The synchronous responses produced along a trace of events. -/
def runOuts (md5 : String → String) (st : St) : List Event → List Output
  | [] => []
  | e :: es =>
      match step md5 st e with
      | (st2, some o) => o :: runOuts md5 st2 es
      | (st2, none) => runOuts md5 st2 es

/-- Whitespace as stripped by JavaScript `String.prototype.trim`
(restricted to the ASCII whitespace characters, which cover the info
strings that occur in fenced code blocks). -/
def isWs (c : Char) : Bool :=
  c = ' ' || c = '\t' || c = '\n' || c = '\r' || c = '\x0b' || c = '\x0c'

/-- JavaScript `String.prototype.trim`: strip whitespace from both ends. -/
def jsTrim (s : String) : String :=
  ⟨((s.data.dropWhile isWs).reverse.dropWhile isWs).reverse⟩

/-- JavaScript `String.prototype.toLowerCase`, on the ASCII range. -/
def jsToLower (s : String) : String :=
  ⟨s.data.map Char.toLower⟩

/-- A markdown-it fence token, reduced to the two fields the rules
touch: the info string and the block content. -/
structure Token where
  info : String
  content : String
deriving DecidableEq

/-- The optimized variant's full fence rule: language check first, then
the info string is set to `json` and the registry path runs. -/
def fenceV2 (md5 : String → String) (defaultFence : Token → String) (st : St) (tok : Token)
    (now : Int) : String × Token × St :=
  let lang := jsToLower (jsTrim tok.info)
  if lang = "vega" ∨ lang = "vega-lite" then
    let tok2 : Token := { tok with info := "json" }
    let l : Lang := if lang = "vega" then .vega else .vegaLite
    let r := lookup md5 st l tok.content now
    (markup r.1, tok2, r.2)
  else (defaultFence tok, tok, st)

/-- JavaScript `ToInt32` coercion. -/
def toInt32 (n : Int) : Int := (n + 2 ^ 31) % 2 ^ 32 - 2 ^ 31

/-- One step of the original variant's rolling hash:
`hash = ((hash << 5) - hash) + char; hash = hash & hash` (the shift and
the final bitwise-and coerce through 32-bit integers; the subtraction
and addition are exact). -/
def hashStepV1 (h : Int) (c : Nat) : Int :=
  toInt32 (toInt32 (h * 32) - h + c)

/-- The original variant's `getContentHash(content)`: fold the rolling
hash over the character codes, starting from 0 (code points coincide
with the JavaScript UTF-16 units on the basic plane). -/
def getContentHashV1 (content : String) : Int :=
  content.data.foldl (fun h ch => hashStepV1 h ch.toNat) 0

/-- A cache entry of the original variant: only the artifact and the
in-flight promise. -/
structure CacheEntryV1 where
  svg : Option String
  promiseId : Option Nat
deriving DecidableEq

/-- The state of the original variant, with a log of computed
fingerprints (one per evaluation of the hash template literal) and of
started render computations. -/
structure StV1 where
  cache : List (String × CacheEntryV1)
  hashLog : List String
  renderLog : List String
deriving DecidableEq

/-- The original variant's fence rule.  The info string is set to
`json` before the language check, so even foreign blocks are mutated.
Inside the try block the order is: read content, compute the
fingerprint `${lang}-${getContentHash(content)}`, parse with
`JSON.parse` (which throws on malformed input — abstracted by the
`parseOk` flag and the thrown message), and only then consult the
cache.  The catch handler reports the error synchronously. -/
def fenceV1 (defaultFence : Token → String) (st : StV1) (tok : Token) (parseOk : Bool)
    (parseErrMsg : String) : String × Token × StV1 :=
  let lang := jsToLower (jsTrim tok.info)
  let tok2 : Token := { tok with info := "json" }
  if lang = "vega" ∨ lang = "vega-lite" then
    let hash := lang ++ "-" ++ toString (getContentHashV1 tok.content)
    let st1 := { st with hashLog := st.hashLog ++ [hash] }
    if parseOk then
      match mget st1.cache hash with
      | some e =>
          match e.svg with
          | some svg =>
              if svg = "" then (renderingMarkup lang, tok2, st1)
              else (figureMarkup svg, tok2, st1)
          | none => (renderingMarkup lang, tok2, st1)
      | none =>
          let st2 :=
            { st1 with
              cache := mset st1.cache hash ⟨none, some st1.renderLog.length⟩
              renderLog := st1.renderLog ++ [hash] }
          (loadingMarkup lang, tok2, st2)
    else (invalidMarkup lang parseErrMsg, tok2, st1)
  else (defaultFence tok2, tok2, st)

/-- The identity digest, used to instantiate the `md5` parameter on
concrete runs. -/
def idHash : String → String := fun s => s

/-- A registry entry last touched at time 0, finished, read once. -/
def c3Entry : CacheEntry := ⟨some "s", none, 0, 1⟩

/-- A registry holding a single expired entry. -/
def c3Map : CacheMap := [("h", c3Entry)]

/-- A registry of 21 entries whose first entry is TTL-expired at time
`CACHE_TTL + 1` while the other 20 are fresh. -/
def c3Big : CacheMap :=
  ("h", c3Entry) :: (List.range CACHE_MAX_SIZE).map
    (fun i => (Nat.repr i, CacheEntry.mk (some "s") none (CACHE_TTL + 1) 1))

/-- A registry of 21 fresh entries with pairwise distinct keys and
pairwise distinct use counts. -/
def c6Map : CacheMap :=
  (List.range (CACHE_MAX_SIZE + 1)).map
    (fun i => (Nat.repr i, CacheEntry.mk (some "s") none 0 i))

/-- Twenty-one distinct single-letter block contents. -/
def otherKeys : List String :=
  ["a", "b", "c", "d", "e", "f", "g", "h", "i", "j", "k",
   "l", "m", "n", "o", "p", "q", "r", "s", "t", "u"]

/-- A trace on which the in-flight deduplication breaks: a vega block
`x` starts rendering at time 0; 21 other blocks are then rendered once
each, so the registry holds 22 entries; the periodic eviction pass at
time 22 ranks the still-pending entry of `x` last (equal use counts,
oldest `lastTouched`) and evicts it; the lookup of `x` at time 23 then
misses and starts a second render while the first has not settled. -/
def c1Trace : List Event :=
  (Event.look Lang.vega "x" 0) ::
    ((otherKeys.enum.map (fun p => Event.look Lang.vega p.2 (1 + (p.1 : Int)))) ++
      [Event.runCleanup 22, Event.look Lang.vega "x" 23])

/-- The state after a vega block `x` was looked up once at time 0:
one pending entry, one unsettled computation. -/
def c4St : St := run idHash St.empty [Event.look Lang.vega "x" 0]

/-- The single computation of `c4St`. -/
def c4Comp : Comp := ⟨getContentHash idHash "x" Lang.vega, Lang.vega, 0, false⟩

/-- The state after a vega block `x` was looked up at time 0 and its
render delivered the artifact `s` at time 1. -/
def c5St : St := run idHash St.empty [Event.look Lang.vega "x" 0, Event.deliverOk 0 "s" 1]

/-- The state after two lookups of the same vega block `x` (use count 2,
still pending). -/
def c8StMid : St :=
  run idHash St.empty [Event.look Lang.vega "x" 0, Event.look Lang.vega "x" 1]

/-- `c8StMid` after the render settles: the settlement handler rewrites
the entry with `accessCount: 1`. -/
def c8StEnd : St := run idHash c8StMid [Event.deliverOk 0 "s" 2]

/-- The state after a single lookup of the vega block `x`. -/
def c8WSt : St := run idHash St.empty [Event.look Lang.vega "x" 0]

/-- A fence token with a language tag the extension does not handle. -/
def c10Tok : Token := ⟨"python", "print"⟩

/-- A fence token for unparseable vega input. -/
def c7Tok : Token := ⟨"vega", "bad spec"⟩

/-- A second token, tagged vega-lite, with unparseable content. -/
def c7Tok2 : Token := ⟨"vega-lite", "oops"⟩

/-- A default fence renderer that echoes the info string, so that
mutations of the token are observable in the output. -/
def echoFence : Token → String := fun t => t.info

theorem mget_mset_self {α : Type} (m : List (String × α)) (k : String) (v : α) :
    mget (mset m k v) k = some v := by
  induction m with
  | nil => simp [mset, mget]
  | cons p ps ih =>
      by_cases h : p.1 = k
      · simp [mset, mget, h]
      · simp [mset, mget, h, ih]

theorem mget_eq_none_iff {α : Type} {m : List (String × α)} {k : String} :
    mget m k = none ↔ ∀ p ∈ m, p.1 ≠ k := by
  induction m with
  | nil => simp [mget]
  | cons p ps ih =>
      by_cases h : p.1 = k
      · simp [mget, h]
      · simp [mget, h, ih]

theorem mget_some_mem {α : Type} {m : List (String × α)} {k : String} {v : α}
    (h : mget m k = some v) : (k, v) ∈ m := by
  induction m with
  | nil => simp [mget] at h
  | cons p ps ih =>
      by_cases hk : p.1 = k
      · simp [mget, hk] at h
        rw [List.mem_cons]
        exact Or.inl (by rw [← hk, ← h])
      · simp [mget, hk] at h
        exact List.mem_cons_of_mem _ (ih h)

theorem mget_of_mem_nodup {α : Type} {m : List (String × α)} {k : String} {v : α}
    (hnd : (m.map Prod.fst).Nodup) (hmem : (k, v) ∈ m) : mget m k = some v := by
  induction m with
  | nil => simp at hmem
  | cons p ps ih =>
      simp only [List.map_cons, List.nodup_cons] at hnd
      rcases List.mem_cons.mp hmem with h | h
      · rw [← h]
        simp [mget]
      · have hk : p.1 ≠ k := by
          intro he
          exact hnd.1 (he ▸ (List.mem_map.mpr ⟨(k, v), h, rfl⟩))
        simp [mget, hk, ih hnd.2 h]

theorem mget_filter_none {α : Type} (q : String × α → Bool) {m : List (String × α)} {k : String}
    (h : mget m k = none) : mget (m.filter q) k = none := by
  rw [mget_eq_none_iff] at h ⊢
  exact fun p hp => h p (List.mem_of_mem_filter hp)

theorem mget_mdel_none {α : Type} {m : List (String × α)} {k : String} (j : String)
    (h : mget m k = none) : mget (mdel m j) k = none :=
  mget_filter_none _ h

theorem mget_mdel_self {α : Type} (m : List (String × α)) (k : String) :
    mget (mdel m k) k = none := by
  rw [mget_eq_none_iff]
  intro p hp
  have := List.of_mem_filter hp
  simpa using this

theorem foldl_mdel_none {α : Type} (l : List (String × α)) (acc : List (String × α)) (k : String)
    (h : mget acc k = none) :
    mget (l.foldl (fun a p => mdel a p.1) acc) k = none := by
  induction l generalizing acc with
  | nil => simpa using h
  | cons p ps ih => exact ih (mdel acc p.1) (mget_mdel_none p.1 h)

theorem foldl_condmdel_none {α : Type} (f : String × α → Bool) (l : List (String × α))
    (acc : List (String × α)) (k : String) (h : mget acc k = none) :
    mget (l.foldl (fun a p => if f p then mdel a p.1 else a) acc) k = none := by
  induction l generalizing acc with
  | nil => simpa using h
  | cons p ps ih =>
      simp only [List.foldl_cons]
      by_cases hf : f p = true
      · simp only [hf, if_true]
        exact ih _ (mget_mdel_none p.1 h)
      · simp only [Bool.not_eq_true] at hf
        simp only [hf, Bool.false_eq_true, if_false]
        exact ih _ h

theorem foldl_condmdel_kills {α : Type} (f : String × α → Bool) (l : List (String × α))
    (acc : List (String × α)) (k : String) (v : α) (hmem : (k, v) ∈ l) (hf : f (k, v) = true) :
    mget (l.foldl (fun a p => if f p then mdel a p.1 else a) acc) k = none := by
  induction l generalizing acc with
  | nil => simp at hmem
  | cons p ps ih =>
      simp only [List.foldl_cons]
      rcases List.mem_cons.mp hmem with h | h
      · rw [← h]
        simp only [hf, if_true]
        exact foldl_condmdel_none f ps _ k (mget_mdel_self acc k)
      · exact ih _ h

theorem foldl_condmdel_id {α : Type} (f : String × α → Bool) (l : List (String × α))
    (acc : List (String × α)) (h : ∀ p ∈ l, f p = false) :
    l.foldl (fun a p => if f p then mdel a p.1 else a) acc = acc := by
  induction l generalizing acc with
  | nil => simp
  | cons p ps ih =>
      simp only [List.foldl_cons, h p (List.mem_cons_self p ps), Bool.false_eq_true, if_false]
      exact ih _ fun q hq => h q (List.mem_cons_of_mem p hq)

theorem mdel_sublist {α : Type} (m : List (String × α)) (k : String) : (mdel m k).Sublist m :=
  List.filter_sublist m

theorem foldl_mdel_sublist {α : Type} (l : List (String × α)) (acc : List (String × α)) :
    (l.foldl (fun a p => mdel a p.1) acc).Sublist acc := by
  induction l generalizing acc with
  | nil => simp
  | cons p ps ih => exact List.Sublist.trans (ih (mdel acc p.1)) (mdel_sublist acc p.1)

theorem foldl_condmdel_sublist {α : Type} (f : String × α → Bool) (l : List (String × α))
    (acc : List (String × α)) :
    (l.foldl (fun a p => if f p then mdel a p.1 else a) acc).Sublist acc := by
  induction l generalizing acc with
  | nil => simp
  | cons p ps ih =>
      simp only [List.foldl_cons]
      by_cases hf : f p = true
      · simp only [hf, if_true]
        exact List.Sublist.trans (ih _) (mdel_sublist acc p.1)
      · simp only [Bool.not_eq_true] at hf
        simp only [hf, Bool.false_eq_true, if_false]
        exact ih _

theorem cleanupCache_sublist (now : Int) (m : CacheMap) : (cleanupCache now m).Sublist m := by
  unfold cleanupCache
  by_cases h : m.length ≤ CACHE_MAX_SIZE
  · simp [h]
  · simp only [h, if_false]
    by_cases h2 : CACHE_MAX_SIZE < (m.filter (fun p => !entryExpired now p.2)).length
    · simp only [h2, if_true]
      exact List.Sublist.trans (foldl_mdel_sublist _ _) (foldl_condmdel_sublist _ m m)
    · simp only [h2, if_false]
      exact foldl_condmdel_sublist _ m m

theorem cleanupCache_none (now : Int) (m : CacheMap) (k : String) (h : mget m k = none) :
    mget (cleanupCache now m) k = none := by
  unfold cleanupCache
  by_cases h1 : m.length ≤ CACHE_MAX_SIZE
  · simpa [h1] using h
  · simp only [h1, if_false]
    by_cases h2 : CACHE_MAX_SIZE < (m.filter (fun p => !entryExpired now p.2)).length
    · simp only [h2, if_true]
      exact foldl_mdel_none _ _ k (foldl_condmdel_none _ m m k h)
    · simp only [h2, if_false]
      exact foldl_condmdel_none _ m m k h

theorem cleanupCache_expired_absent (now : Int) (m : CacheMap) (k : String) (e : CacheEntry)
    (hsz : CACHE_MAX_SIZE < m.length) (hget : mget m k = some e)
    (hexp : entryExpired now e = true) :
    mget (cleanupCache now m) k = none := by
  unfold cleanupCache
  simp only [Nat.not_le.mpr hsz, if_false]
  have hkill := foldl_condmdel_kills (fun p => entryExpired now p.2) m m k e
    (mget_some_mem hget) hexp
  by_cases h2 : CACHE_MAX_SIZE < (m.filter (fun p => !entryExpired now p.2)).length
  · simp only [h2, if_true]
    exact foldl_mdel_none _ _ k hkill
  · simp only [h2, if_false]
    exact hkill

theorem lookup_hit_pending (md5 : String → String) (st : St) (lang : Lang) (content : String)
    (now : Int) (e : CacheEntry) (h : mget st.cache (getContentHash md5 content lang) = some e)
    (hsvg : e.svg = none) :
    lookup md5 st lang content now =
      (Output.rendering lang,
        { st with cache := (mset st.cache (getContentHash md5 content lang)
            { e with timestamp := now, accessCount := e.accessCount + 1 }) }) := by
  simp [lookup, h, hsvg]

theorem lookup_hit_ready (md5 : String → String) (st : St) (lang : Lang) (content : String)
    (now : Int) (e : CacheEntry) (a : String)
    (h : mget st.cache (getContentHash md5 content lang) = some e)
    (hsvg : e.svg = some a) (hne : a ≠ "") :
    lookup md5 st lang content now =
      (Output.figure a,
        { st with cache := (mset st.cache (getContentHash md5 content lang)
            { e with timestamp := now, accessCount := e.accessCount + 1 }) }) := by
  simp [lookup, h, hsvg, hne]

theorem lookup_miss (md5 : String → String) (st : St) (lang : Lang) (content : String) (now : Int)
    (h : mget st.cache (getContentHash md5 content lang) = none) :
    (lookup md5 st lang content now).1 = Output.loading lang
    ∧ mget (lookup md5 st lang content now).2.cache (getContentHash md5 content lang)
        = some ⟨none, some st.comps.length, now, 1⟩
    ∧ (lookup md5 st lang content now).2.renderLog
        = st.renderLog ++ [getContentHash md5 content lang]
    ∧ (lookup md5 st lang content now).2.comps
        = st.comps ++ [⟨getContentHash md5 content lang, lang, now, false⟩] := by
  by_cases hc : CLEANUP_TRIGGER < st.cache.length
  · have h1 : mget (cleanupCache now st.cache) (getContentHash md5 content lang) = none :=
      cleanupCache_none now st.cache _ h
    simp [lookup, h, hc, getOrCreateRenderPromise, h1, mget_mset_self]
  · simp [lookup, h, hc, getOrCreateRenderPromise, mget_mset_self]

theorem pending_reads (md5 : String → String) (lang : Lang) (content : String)
    (times : List Int) :
    ∀ (st0 : St) (e0 : CacheEntry),
      mget st0.cache (getContentHash md5 content lang) = some e0 → e0.svg = none →
      runOuts md5 st0 (times.map (Event.look lang content))
          = times.map (fun _ => Output.rendering lang)
      ∧ (run md5 st0 (times.map (Event.look lang content))).renderLog = st0.renderLog := by
  induction times with
  | nil => intro st0 e0 _ _; exact ⟨rfl, rfl⟩
  | cons t ts ih =>
      intro st0 e0 h hsvg
      have hstep := lookup_hit_pending md5 st0 lang content t e0 h hsvg
      have hnext := ih ({ st0 with cache := (mset st0.cache (getContentHash md5 content lang)
          { e0 with timestamp := t, accessCount := e0.accessCount + 1 }) })
        ({ e0 with timestamp := t, accessCount := e0.accessCount + 1 })
        (mget_mset_self _ _ _) hsvg
      simp only [List.map_cons, runOuts, run, step, hstep]
      exact ⟨by rw [hnext.1], by rw [hnext.2]⟩

theorem ready_reads (md5 : String → String) (lang : Lang) (content : String) (a : String)
    (hne : a ≠ "") (times : List Int) :
    ∀ (st0 : St) (e0 : CacheEntry),
      mget st0.cache (getContentHash md5 content lang) = some e0 → e0.svg = some a →
      runOuts md5 st0 (times.map (Event.look lang content))
          = times.map (fun _ => Output.figure a)
      ∧ (run md5 st0 (times.map (Event.look lang content))).renderLog = st0.renderLog := by
  induction times with
  | nil => intro st0 e0 _ _; exact ⟨rfl, rfl⟩
  | cons t ts ih =>
      intro st0 e0 h hsvg
      have hstep := lookup_hit_ready md5 st0 lang content t e0 a h hsvg hne
      have hnext := ih ({ st0 with cache := (mset st0.cache (getContentHash md5 content lang)
          { e0 with timestamp := t, accessCount := e0.accessCount + 1 }) })
        ({ e0 with timestamp := t, accessCount := e0.accessCount + 1 })
        (mget_mset_self _ _ _) hsvg
      simp only [List.map_cons, runOuts, run, step, hstep]
      exact ⟨by rw [hnext.1], by rw [hnext.2]⟩

theorem settleWith_unsettled (st : St) (cid : Nat) (c : Comp) (svg : String) (now : Int)
    (hc : st.comps[cid]? = some c) (hs : c.settled = false) :
    settleWith st cid svg now =
      { st with
        cache := mset st.cache c.hash ⟨some svg, none, now, 1⟩
        comps := st.comps.set cid { c with settled := true }
        refreshLog := st.refreshLog ++ [c.hash] } := by
  simp [settleWith, hc, hs]

theorem settleWith_settled (st : St) (cid : Nat) (c : Comp) (svg : String) (now : Int)
    (hc : st.comps[cid]? = some c) (hs : c.settled = true) :
    settleWith st cid svg now = st := by
  simp [settleWith, hc, hs]

theorem getOrCreate_logs (st : St) (hash : String) (lang : Lang) (now : Int) :
    (getOrCreateRenderPromise st hash lang now).2.refreshLog = st.refreshLog
    ∧ (getOrCreateRenderPromise st hash lang now).2.comps.countP (fun c => c.settled)
        = st.comps.countP (fun c => c.settled) := by
  unfold getOrCreateRenderPromise
  cases (mget st.cache hash).bind (fun e => e.promiseId) with
  | some cid => exact ⟨rfl, rfl⟩
  | none => simp [List.countP_append, List.countP_cons]

theorem lookup_logs (md5 : String → String) (st : St) (lang : Lang) (content : String)
    (now : Int) :
    (lookup md5 st lang content now).2.refreshLog = st.refreshLog
    ∧ (lookup md5 st lang content now).2.comps.countP (fun c => c.settled)
        = st.comps.countP (fun c => c.settled) := by
  cases hm : mget st.cache (getContentHash md5 content lang) with
  | some e =>
      cases hsvg : e.svg with
      | some svg => by_cases h : svg = "" <;> simp [lookup, hm, hsvg, h]
      | none => simp [lookup, hm, hsvg]
  | none =>
      by_cases hc : CLEANUP_TRIGGER < st.cache.length
      · have hg := getOrCreate_logs { st with cache := cleanupCache now st.cache }
          (getContentHash md5 content lang) lang now
        simpa [lookup, hm, hc] using hg
      · have hg := getOrCreate_logs st (getContentHash md5 content lang) lang now
        simpa [lookup, hm, hc] using hg

theorem settleWith_refresh_inv (st : St) (cid : Nat) (svg : String) (now : Int)
    (h : st.refreshLog.length = st.comps.countP (fun c => c.settled)) :
    (settleWith st cid svg now).refreshLog.length
      = (settleWith st cid svg now).comps.countP (fun c => c.settled) := by
  cases hc : st.comps[cid]? with
  | none => simpa [settleWith, hc] using h
  | some c =>
      by_cases hs : c.settled
      · rw [settleWith_settled st cid c svg now hc hs]
        exact h
      · have hs2 : c.settled = false := by simpa using hs
        rw [settleWith_unsettled st cid c svg now hc hs2]
        have hlt : cid < st.comps.length := (List.getElem?_eq_some_iff.mp hc).1
        have hcg : st.comps[cid] = c := (List.getElem?_eq_some_iff.mp hc).2
        simp only [List.countP_set _ _ _ _ hlt, hcg, hs2, List.length_append]
        simp [h]

theorem step_refresh_inv (md5 : String → String) (st : St) (e : Event)
    (h : st.refreshLog.length = st.comps.countP (fun c => c.settled)) :
    (step md5 st e).1.refreshLog.length
      = (step md5 st e).1.comps.countP (fun c => c.settled) := by
  cases e with
  | look lang content now =>
      have hl := lookup_logs md5 st lang content now
      simp only [step]
      rw [hl.1, hl.2]
      exact h
  | deliverOk cid svg now => exact settleWith_refresh_inv st cid svg now h
  | deliverFail cid msg now => exact settleWith_refresh_inv st cid (errorArtifact msg) now h
  | fireTimeout cid now =>
      exact settleWith_refresh_inv st cid (errorArtifact "Rendering timed out") now h
  | runCleanup now => exact h

theorem run_refresh_inv (md5 : String → String) (evs : List Event) :
    ∀ st : St, st.refreshLog.length = st.comps.countP (fun c => c.settled) →
      (run md5 st evs).refreshLog.length
        = (run md5 st evs).comps.countP (fun c => c.settled) := by
  induction evs with
  | nil => exact fun st h => h
  | cons e es ih => exact fun st h => ih (step md5 st e).1 (step_refresh_inv md5 st e h)

theorem beq_symm_str (a b : String) : (a == b) = (b == a) := by
  rcases Decidable.em (a = b) with h | h
  · subst h; rfl
  · simp [beq_eq_false_iff_ne.mpr h, beq_eq_false_iff_ne.mpr (Ne.symm h)]

theorem foldl_mdel_eq_filter {α : Type} (l : List (String × α)) :
    ∀ acc : List (String × α),
      l.foldl (fun a p => mdel a p.1) acc
        = acc.filter (fun q => !l.any (fun p => p.1 == q.1)) := by
  induction l with
  | nil => intro acc; simp
  | cons p ps ih =>
      intro acc
      have hfun : (fun q : String × α => ((!ps.any fun r => r.1 == q.1) && (q.1 != p.1)))
          = (fun q : String × α => !(p.1 == q.1 || ps.any fun r => r.1 == q.1)) := by
        funext q
        rw [Bool.not_or, bne, beq_symm_str q.1 p.1, Bool.and_comm]
      rw [List.foldl_cons, ih (mdel acc p.1), mdel, List.filter_filter]
      simp only [List.any_cons]
      rw [hfun]

theorem rankLe_total : ∀ a b : String × CacheEntry, (rankLe a b || rankLe b a) = true := by
  intro a b
  unfold rankLe
  by_cases h : a.2.accessCount = b.2.accessCount
  · rw [if_pos h, if_pos h.symm]
    simp only [Bool.or_eq_true, decide_eq_true_eq]
    omega
  · rw [if_neg h, if_neg (fun h2 => h h2.symm)]
    simp only [Bool.or_eq_true, decide_eq_true_eq]
    omega

theorem rankLe_trans : ∀ a b c : String × CacheEntry,
    rankLe a b = true → rankLe b c = true → rankLe a c = true := by
  intro a b c h1 h2
  unfold rankLe at h1 h2 ⊢
  split_ifs at h1 h2 ⊢ <;> simp only [decide_eq_true_eq] at h1 h2 ⊢ <;> omega

/-- C6: when an eviction pass runs on `CACHE_MAX_SIZE + k` entries (with
`k > 0`) that are all within the TTL, exactly `CACHE_MAX_SIZE` entries
remain; they are entries of the original registry, a permutation of the
first `CACHE_MAX_SIZE` entries of the stable sort by
`(useCount descending, lastTouched descending)`, and every surviving
entry ranks at least as high as every evicted one under that ordering. -/
theorem capacity_eviction_keeps_top (now : Int) (m : CacheMap) (k : Nat)
    (hlen : m.length = CACHE_MAX_SIZE + k) (hk : 0 < k)
    (hvalid : ∀ p ∈ m, entryExpired now p.2 = false)
    (hnd : (m.map Prod.fst).Nodup) :
    (cleanupCache now m).length = CACHE_MAX_SIZE
    ∧ (cleanupCache now m).Perm ((m.insertionSort (fun a b => rankLe a b = true)).take CACHE_MAX_SIZE)
    ∧ (∀ a ∈ cleanupCache now m, a ∈ m)
    ∧ (∀ a ∈ cleanupCache now m, ∀ b ∈ m, b ∉ cleanupCache now m → rankLe a b = true) := by
  have hval : m.filter (fun p => !entryExpired now p.2) = m :=
    List.filter_eq_self.mpr (fun p hp => by simp [hvalid p hp])
  have hns : ¬ m.length ≤ CACHE_MAX_SIZE := by omega
  have hafter : m.foldl (fun acc p => if entryExpired now p.2 then mdel acc p.1 else acc) m = m :=
    foldl_condmdel_id _ m m hvalid
  have hgt2 : CACHE_MAX_SIZE < m.length := by omega
  have hr : cleanupCache now m
      = m.filter
          (fun q => !((m.insertionSort (fun a b => rankLe a b = true)).drop CACHE_MAX_SIZE).any (fun p => p.1 == q.1)) := by
    simp only [cleanupCache, hval, hafter, hns, hgt2, if_true, if_false]
    exact foldl_mdel_eq_filter _ m
  have hperm : (m.insertionSort (fun a b => rankLe a b = true)).Perm m :=
    List.perm_insertionSort _ m
  have hsortnd : ((m.insertionSort (fun a b => rankLe a b = true)).map Prod.fst).Nodup :=
    ((hperm.symm).map Prod.fst).nodup hnd
  have htd := List.take_append_drop CACHE_MAX_SIZE (m.insertionSort (fun a b => rankLe a b = true))
  have hdisj : ∀ q ∈ (m.insertionSort (fun a b => rankLe a b = true)).take CACHE_MAX_SIZE,
      ∀ p ∈ (m.insertionSort (fun a b => rankLe a b = true)).drop CACHE_MAX_SIZE, p.1 ≠ q.1 := by
    have h2 := hsortnd
    rw [← htd, List.map_append, List.nodup_append] at h2
    intro q hq p hp he
    exact h2.2.2 (List.mem_map.mpr ⟨q, hq, rfl⟩) (List.mem_map.mpr ⟨p, hp, he⟩)
  have hPA : ∀ q ∈ (m.insertionSort (fun a b => rankLe a b = true)).take CACHE_MAX_SIZE,
      (!((m.insertionSort (fun a b => rankLe a b = true)).drop CACHE_MAX_SIZE).any (fun p => p.1 == q.1)) = true := by
    intro q hq
    simp only [Bool.not_eq_true', List.any_eq_false]
    intro p hp
    simpa using hdisj q hq p hp
  have hPB : ∀ q ∈ (m.insertionSort (fun a b => rankLe a b = true)).drop CACHE_MAX_SIZE,
      ¬ (!((m.insertionSort (fun a b => rankLe a b = true)).drop CACHE_MAX_SIZE).any (fun p => p.1 == q.1)) = true := by
    intro q hq
    simp only [Bool.not_eq_true', Bool.not_eq_false]
    rw [List.any_eq_true]
    exact ⟨q, hq, by simp⟩
  have hsf : (m.insertionSort (fun a b => rankLe a b = true)).filter
        (fun q => !((m.insertionSort (fun a b => rankLe a b = true)).drop CACHE_MAX_SIZE).any (fun p => p.1 == q.1))
      = (m.insertionSort (fun a b => rankLe a b = true)).take CACHE_MAX_SIZE := by
    have h1 := congrArg
      (List.filter
        (fun q => !((m.insertionSort (fun a b => rankLe a b = true)).drop CACHE_MAX_SIZE).any (fun p => p.1 == q.1))) htd
    rw [List.filter_append, List.filter_eq_self.mpr hPA, List.filter_eq_nil_iff.mpr hPB,
      List.append_nil] at h1
    exact h1.symm
  have hrperm : (cleanupCache now m).Perm ((m.insertionSort (fun a b => rankLe a b = true)).take CACHE_MAX_SIZE) := by
    rw [hr, ← hsf]
    exact List.Perm.filter _ hperm.symm
  have hlen2 : (cleanupCache now m).length = CACHE_MAX_SIZE := by
    rw [hrperm.length_eq, List.length_take, hperm.length_eq, hlen]
    omega
  refine ⟨hlen2, hrperm, ?_, ?_⟩
  · intro a ha
    rw [hr] at ha
    exact List.mem_of_mem_filter ha
  · intro a ha b hbm hbr
    have hatake : a ∈ (m.insertionSort (fun a b => rankLe a b = true)).take CACHE_MAX_SIZE := hrperm.mem_iff.mp ha
    have hbs : b ∈ m.insertionSort (fun a b => rankLe a b = true) := hperm.mem_iff.mpr hbm
    have hbdrop : b ∈ (m.insertionSort (fun a b => rankLe a b = true)).drop CACHE_MAX_SIZE := by
      rw [← htd] at hbs
      rcases List.mem_append.mp hbs with h | h
      · exfalso
        apply hbr
        rw [hr]
        exact List.mem_filter.mpr ⟨hbm, hPA b h⟩
      · exact h
    haveI : IsTotal (String × CacheEntry) (fun a b => rankLe a b = true) :=
      ⟨fun a b => (Bool.or_eq_true _ _).mp (rankLe_total a b)⟩
    haveI : IsTrans (String × CacheEntry) (fun a b => rankLe a b = true) :=
      ⟨fun a b c => rankLe_trans a b c⟩
    have hsorted : List.Pairwise (fun a b => rankLe a b = true)
        (m.insertionSort (fun a b => rankLe a b = true)) :=
      List.sorted_insertionSort _ m
    rw [← htd] at hsorted
    exact (List.pairwise_append.mp hsorted).2.2 a hatake b hbdrop

theorem lookup_hit_cache (md5 : String → String) (st : St) (lang : Lang) (content : String)
    (now : Int) (e : CacheEntry) (h : mget st.cache (getContentHash md5 content lang) = some e) :
    (lookup md5 st lang content now).2.cache
      = mset st.cache (getContentHash md5 content lang)
          { e with timestamp := now, accessCount := e.accessCount + 1 } := by
  cases hsvg : e.svg with
  | none => simp [lookup, h, hsvg]
  | some a => by_cases ha : a = "" <;> simp [lookup, h, hsvg, ha]

/-- C1 (amended): if `N ≥ 1` lookups for the same fingerprint arrive
before the first computation settles and nothing else (in particular no
eviction pass) touches the registry in between, the render function is
invoked exactly once, the first lookup returns the Loading placeholder
and every later lookup returns the Rendering (pending) placeholder. -/
theorem single_flight_render (md5 : String → String) (st0 : St) (lang : Lang) (content : String)
    (t0 : Int) (times : List Int)
    (h0 : mget st0.cache (getContentHash md5 content lang) = none) :
    (run md5 st0 ((t0 :: times).map (Event.look lang content))).renderLog.count
        (getContentHash md5 content lang)
      = st0.renderLog.count (getContentHash md5 content lang) + 1
    ∧ runOuts md5 st0 ((t0 :: times).map (Event.look lang content))
      = Output.loading lang :: times.map (fun _ => Output.rendering lang) := by
  have hm := lookup_miss md5 st0 lang content t0 h0
  have hp := pending_reads md5 lang content times (lookup md5 st0 lang content t0).2
    ⟨none, some st0.comps.length, t0, 1⟩ hm.2.1 rfl
  constructor
  · simp only [List.map_cons, run, step]
    rw [hp.2, hm.2.2.1, List.count_append]
    simp [List.count_singleton]
  · simp only [List.map_cons, runOuts, step]
    rw [hm.1, hp.1]

/-- C1 witness: three lookups of the vega block `x` from the empty
state invoke the render function once; the first returns Loading, the
other two the pending Rendering placeholder. -/
theorem single_flight_render_witness :
    mget St.empty.cache (getContentHash idHash "x" Lang.vega) = none
    ∧ ((run idHash St.empty (([0, 1, 2] : List Int).map (Event.look Lang.vega "x"))).renderLog.count
          (getContentHash idHash "x" Lang.vega)
        = St.empty.renderLog.count (getContentHash idHash "x" Lang.vega) + 1
      ∧ runOuts idHash St.empty (([0, 1, 2] : List Int).map (Event.look Lang.vega "x"))
        = Output.loading Lang.vega
            :: ([1, 2] : List Int).map (fun _ => Output.rendering Lang.vega)) :=
  ⟨rfl, single_flight_render idHash St.empty Lang.vega "x" 0 [1, 2] rfl⟩

/-- C1 counterexample: on the trace `c1Trace` two lookups for the vega
block `x` both arrive while neither of its computations has settled,
yet the render function for its fingerprint is invoked twice and two
computations for that fingerprint are simultaneously outstanding — the
eviction pass in between removed the still-pending entry, so the claim
fails as stated. -/
theorem second_render_while_first_pending :
    (run idHash St.empty c1Trace).renderLog.count (getContentHash idHash "x" Lang.vega) = 2
    ∧ ((run idHash St.empty c1Trace).comps.filter
        (fun c => c.hash == getContentHash idHash "x" Lang.vega && !c.settled)).length = 2 := by
  decide

/-- C2: the fingerprint of the optimized variant is pure (equal kind and
text give equal fingerprints), is the digest of the versioned hash input
`v1:<kind>:<text>` (the kind is folded into the digest input, not
appended after hashing), the hash inputs of the two kinds over the same
text always differ, and consequently — for any injective digest — so
do the fingerprints. -/
theorem fingerprint_pure_and_kind_separating (md5 : String → String) (text : String)
    (hinj : Function.Injective md5) :
    (∀ (k k2 : Lang) (t t2 : String), k = k2 → t = t2 →
        getContentHash md5 t k = getContentHash md5 t2 k2)
    ∧ (∀ (k : Lang) (t : String), getContentHash md5 t k = md5 (hashInput k t))
    ∧ hashInput Lang.vega text ≠ hashInput Lang.vegaLite text
    ∧ getContentHash md5 text Lang.vega ≠ getContentHash md5 text Lang.vegaLite := by
  have hneq : hashInput Lang.vega text ≠ hashInput Lang.vegaLite text := by
    intro h
    have h2 := congrArg String.length h
    simp only [hashInput, langTag, String.length_append] at h2
    rw [show "v1:".length = 3 from rfl, show "vega".length = 4 from rfl,
      show "vega-lite".length = 9 from rfl, show ":".length = 1 from rfl] at h2
    omega
  exact ⟨fun k k2 t t2 hk ht => by rw [hk, ht], fun k t => rfl, hneq,
    fun h => hneq (hinj h)⟩

/-- C2 witness: at the identity digest and the text `spec`, the two
kinds produce different fingerprints. -/
theorem fingerprint_pure_and_kind_separating_witness :
    Function.Injective idHash
    ∧ getContentHash idHash "spec" Lang.vega ≠ getContentHash idHash "spec" Lang.vegaLite :=
  ⟨fun _ _ h => h,
   (fingerprint_pure_and_kind_separating idHash "spec" (fun _ _ h => h)).2.2.2⟩

/-- C3 counterexample: a registry holding a single entry whose
`lastTouched` is a full TTL behind the clock is left untouched by an
eviction pass, because the pass returns immediately whenever the
registry does not exceed capacity — so the entry is still present
afterwards, contradicting unconditional TTL eviction. -/
theorem ttl_expired_entry_survives_pass :
    entryExpired (CACHE_TTL + 1) c3Entry = true
    ∧ c3Map.length ≤ CACHE_MAX_SIZE
    ∧ cleanupCache (CACHE_TTL + 1) c3Map = c3Map
    ∧ mget (cleanupCache (CACHE_TTL + 1) c3Map) "h" = some c3Entry := by
  decide

/-- C3 (amended): an eviction pass removes TTL-expired entries only
when it starts with more than `CACHE_MAX_SIZE` entries; with at most
`CACHE_MAX_SIZE` entries it leaves the registry unchanged, and above
capacity every expired entry is unconditionally removed. -/
theorem ttl_eviction_requires_over_capacity (now : Int) (m : CacheMap) (k : String)
    (e : CacheEntry) :
    (m.length ≤ CACHE_MAX_SIZE → cleanupCache now m = m)
    ∧ (CACHE_MAX_SIZE < m.length → mget m k = some e → entryExpired now e = true →
        mget (cleanupCache now m) k = none) := by
  constructor
  · intro h
    simp [cleanupCache, h]
  · exact fun h1 h2 h3 => cleanupCache_expired_absent now m k e h1 h2 h3

/-- C3 witness: the under-capacity pass leaves the one-entry registry
unchanged, and the over-capacity pass on 21 entries removes the expired
entry `h`. -/
theorem ttl_eviction_requires_over_capacity_witness :
    (c3Map.length ≤ CACHE_MAX_SIZE ∧ cleanupCache 5 c3Map = c3Map)
    ∧ (CACHE_MAX_SIZE < c3Big.length ∧ mget c3Big "h" = some c3Entry
        ∧ entryExpired (CACHE_TTL + 1) c3Entry = true
        ∧ mget (cleanupCache (CACHE_TTL + 1) c3Big) "h" = none) :=
  ⟨⟨by decide, (ttl_eviction_requires_over_capacity 5 c3Map "h" c3Entry).1 (by decide)⟩,
   ⟨by decide, by decide, by decide,
    (ttl_eviction_requires_over_capacity (CACHE_TTL + 1) c3Big "h" c3Entry).2
      (by decide) (by decide) (by decide)⟩⟩

/-- C4: once the timeout of an unsettled computation fires (at or after
start time plus `RENDER_TIMEOUT`), the registry entry of its
fingerprint holds the terminal timeout-error artifact; a late real
completion (success or failure) of the underlying computation is a
no-op on the state; and a later lookup of that fingerprint returns the
stored error artifact. -/
theorem timeout_settles_to_stable_error (md5 : String → String) (st : St) (cid : Nat) (c : Comp)
    (content : String) (now later : Int) (svg msg : String)
    (hc : st.comps[cid]? = some c) (huns : c.settled = false)
    (_htime : c.startTime + RENDER_TIMEOUT ≤ now) :
    mget (settleTimeout st cid now).cache c.hash
        = some ⟨some (errorArtifact "Rendering timed out"), none, now, 1⟩
    ∧ settleOk (settleTimeout st cid now) cid svg later = settleTimeout st cid now
    ∧ settleErr (settleTimeout st cid now) cid msg later = settleTimeout st cid now
    ∧ (c.hash = getContentHash md5 content c.lang →
        (lookup md5 (settleTimeout st cid now) c.lang content later).1
          = Output.figure (errorArtifact "Rendering timed out")) := by
  have hlt : cid < st.comps.length := (List.getElem?_eq_some_iff.mp hc).1
  have hstep : settleTimeout st cid now =
      { st with
        cache := (mset st.cache c.hash ⟨some (errorArtifact "Rendering timed out"), none, now, 1⟩)
        comps := (st.comps.set cid { c with settled := true })
        refreshLog := (st.refreshLog ++ [c.hash]) } := by
    unfold settleTimeout settleErr
    exact settleWith_unsettled st cid c _ now hc huns
  have hget2 : (settleTimeout st cid now).comps[cid]? = some { c with settled := true } := by
    rw [hstep]
    exact List.getElem?_set_self hlt
  have hmg : mget (settleTimeout st cid now).cache c.hash
      = some ⟨some (errorArtifact "Rendering timed out"), none, now, 1⟩ := by
    rw [hstep]
    exact mget_mset_self _ _ _
  refine ⟨hmg, ?_, ?_, ?_⟩
  · exact settleWith_settled _ cid _ svg later hget2 rfl
  · exact settleWith_settled _ cid _ (errorArtifact msg) later hget2 rfl
  · intro hh
    rw [lookup_hit_ready md5 (settleTimeout st cid now) c.lang content later
      ⟨some (errorArtifact "Rendering timed out"), none, now, 1⟩
      (errorArtifact "Rendering timed out") (hh ▸ hmg) rfl (by decide)]

/-- C4 witness: the pending computation of `c4St` is timed out at time
300000; the stored artifact is stable under late deliveries and is
returned by a later lookup. -/
theorem timeout_settles_to_stable_error_witness :
    c4St.comps[0]? = some c4Comp
    ∧ c4Comp.settled = false
    ∧ c4Comp.startTime + RENDER_TIMEOUT ≤ 300000
    ∧ (mget (settleTimeout c4St 0 300000).cache c4Comp.hash
        = some ⟨some (errorArtifact "Rendering timed out"), none, 300000, 1⟩
      ∧ settleOk (settleTimeout c4St 0 300000) 0 "late" 400000 = settleTimeout c4St 0 300000
      ∧ settleErr (settleTimeout c4St 0 300000) 0 "late2" 400000 = settleTimeout c4St 0 300000
      ∧ (c4Comp.hash = getContentHash idHash "x" c4Comp.lang →
          (lookup idHash (settleTimeout c4St 0 300000) c4Comp.lang "x" 400000).1
            = Output.figure (errorArtifact "Rendering timed out"))) :=
  ⟨by decide, rfl, by decide,
   timeout_settles_to_stable_error idHash c4St 0 c4Comp "x" 300000 400000 "late" "late2"
     (by decide) rfl (by decide)⟩

/-- C5: once the entry of a fingerprint holds a finished non-empty
artifact, any number of further lookups of that fingerprint all return
that same artifact and leave the render-invocation log unchanged (the
render function is not invoked again); nothing in the trace evicts the
entry.  The non-emptiness hypothesis reflects the JavaScript truthiness
test `if (cacheEntry.svg)` on the hit path. -/
theorem read_after_settle_idempotent (md5 : String → String) (st0 : St) (lang : Lang)
    (content a : String) (e0 : CacheEntry) (times : List Int)
    (hent : mget st0.cache (getContentHash md5 content lang) = some e0)
    (hsvg : e0.svg = some a) (hne : a ≠ "") :
    runOuts md5 st0 (times.map (Event.look lang content))
        = times.map (fun _ => Output.figure a)
    ∧ (run md5 st0 (times.map (Event.look lang content))).renderLog = st0.renderLog :=
  ready_reads md5 lang content a hne times st0 e0 hent hsvg

/-- C5 witness: after the render of `x` settled with artifact `s`, two
further lookups both return `s` and do not extend the render log. -/
theorem read_after_settle_idempotent_witness :
    mget c5St.cache (getContentHash idHash "x" Lang.vega) = some ⟨some "s", none, 1, 1⟩
    ∧ (runOuts idHash c5St ([2, 3].map (Event.look Lang.vega "x"))
        = [Output.figure "s", Output.figure "s"]
      ∧ (run idHash c5St ([2, 3].map (Event.look Lang.vega "x"))).renderLog = c5St.renderLog) :=
  ⟨by decide,
   read_after_settle_idempotent idHash c5St Lang.vega "x" "s" ⟨some "s", none, 1, 1⟩ [2, 3]
     (by decide) rfl (by decide)⟩

/-- C6 witness: on 21 fresh entries with distinct use counts the pass
keeps exactly 20. -/
theorem capacity_eviction_keeps_top_witness :
    c6Map.length = CACHE_MAX_SIZE + 1
    ∧ (0 : Nat) < 1
    ∧ (∀ p ∈ c6Map, entryExpired 0 p.2 = false)
    ∧ (c6Map.map Prod.fst).Nodup
    ∧ (cleanupCache 0 c6Map).length = CACHE_MAX_SIZE :=
  ⟨by decide, by decide, by decide, by decide,
   (capacity_eviction_keeps_top 0 c6Map 1 (by decide) (by decide) (by decide) (by decide)).1⟩

/-- C7 counterexample: for the unparseable vega block `c7Tok` the
original fence rule answers synchronously with the Error wrapper and
stores nothing in the registry, but it does compute and record a
fingerprint before parsing — contradicting the claim that no
fingerprint is computed for unparseable input. -/
theorem fingerprint_computed_for_unparseable :
    (fenceV1 echoFence ⟨[], [], []⟩ c7Tok false "oops").1 = invalidMarkup "vega" "oops"
    ∧ (fenceV1 echoFence ⟨[], [], []⟩ c7Tok false "oops").2.2.cache = []
    ∧ (fenceV1 echoFence ⟨[], [], []⟩ c7Tok false "oops").2.2.hashLog
        = ["vega-" ++ toString (getContentHashV1 "bad spec")] := by
  decide

/-- C7 (amended): unparseable input in a vega/vega-lite block is
answered synchronously with the Error wrapper, never enters the
registry, and starts no render — but its fingerprint is computed (the
hash template literal is evaluated before parsing) and discarded. -/
theorem unparseable_error_no_entry_but_hash (df : Token → String) (st : StV1) (tok : Token)
    (msg : String)
    (hlang : jsToLower (jsTrim tok.info) = "vega" ∨ jsToLower (jsTrim tok.info) = "vega-lite") :
    (fenceV1 df st tok false msg).1 = invalidMarkup (jsToLower (jsTrim tok.info)) msg
    ∧ (fenceV1 df st tok false msg).2.2.cache = st.cache
    ∧ (fenceV1 df st tok false msg).2.2.renderLog = st.renderLog
    ∧ (fenceV1 df st tok false msg).2.2.hashLog
        = st.hashLog
            ++ [jsToLower (jsTrim tok.info) ++ "-" ++ toString (getContentHashV1 tok.content)] := by
  simp [fenceV1, hlang]

/-- C7 witness: the vega-lite token `c7Tok2` with failing parse is
answered with the Error wrapper, the registry and render log stay
empty, and exactly its fingerprint is logged. -/
theorem unparseable_error_no_entry_but_hash_witness :
    (jsToLower (jsTrim c7Tok2.info) = "vega" ∨ jsToLower (jsTrim c7Tok2.info) = "vega-lite")
    ∧ ((fenceV1 echoFence ⟨[], [], []⟩ c7Tok2 false "m").1
        = invalidMarkup (jsToLower (jsTrim c7Tok2.info)) "m"
      ∧ (fenceV1 echoFence ⟨[], [], []⟩ c7Tok2 false "m").2.2.cache
        = (⟨[], [], []⟩ : StV1).cache
      ∧ (fenceV1 echoFence ⟨[], [], []⟩ c7Tok2 false "m").2.2.renderLog
        = (⟨[], [], []⟩ : StV1).renderLog
      ∧ (fenceV1 echoFence ⟨[], [], []⟩ c7Tok2 false "m").2.2.hashLog
        = (⟨[], [], []⟩ : StV1).hashLog
            ++ [jsToLower (jsTrim c7Tok2.info) ++ "-" ++ toString (getContentHashV1 c7Tok2.content)]) :=
  ⟨by decide,
   unparseable_error_no_entry_but_hash echoFence ⟨[], [], []⟩ c7Tok2 "m" (by decide)⟩

/-- C8 counterexample: two lookups of the pending vega block `x` raise
its use counter to 2, but the settlement handler rewrites the entry
with `accessCount: 1` — the counter decreases at the
pending-to-settled transition, so it is not monotone. -/
theorem useCount_decreases_at_settlement :
    (mget c8StMid.cache (getContentHash idHash "x" Lang.vega)).map CacheEntry.accessCount
        = some 2
    ∧ (mget c8StEnd.cache (getContentHash idHash "x" Lang.vega)).map CacheEntry.accessCount
        = some 1 := by
  decide

/-- C8 (amended): the use counter is incremented by every read, and an
eviction pass either keeps an entry byte-for-byte or removes it (it
never rewrites a counter); but the settlement handler replaces the
entry with a fresh one whose use counter is 1. -/
theorem useCount_increments_on_read_resets_on_settle (md5 : String → String) (st : St)
    (lang : Lang) (content : String) (now : Int) (e : CacheEntry) (m : CacheMap) (k : String)
    (cid : Nat) (c : Comp) (svg : String) :
    (mget st.cache (getContentHash md5 content lang) = some e →
      mget ((lookup md5 st lang content now).2).cache (getContentHash md5 content lang)
        = some { e with timestamp := now, accessCount := e.accessCount + 1 })
    ∧ ((m.map Prod.fst).Nodup → mget (cleanupCache now m) k = some e → mget m k = some e)
    ∧ (st.comps[cid]? = some c → c.settled = false →
        mget (settleWith st cid svg now).cache c.hash = some ⟨some svg, none, now, 1⟩) := by
  refine ⟨?_, ?_, ?_⟩
  · intro h
    rw [lookup_hit_cache md5 st lang content now e h]
    exact mget_mset_self _ _ _
  · intro hnd hr
    exact mget_of_mem_nodup hnd
      ((cleanupCache_sublist now m).subset (mget_some_mem hr))
  · intro hc hs
    rw [settleWith_unsettled st cid c svg now hc hs]
    exact mget_mset_self _ _ _

/-- C8 witness: on the one-entry pending state, a read at time 5 raises
the counter from 1 to 2, the (no-op) eviction pass preserves the entry,
and settlement stores a fresh entry with counter 1. -/
theorem useCount_increments_on_read_resets_on_settle_witness :
    (mget c8WSt.cache (getContentHash idHash "x" Lang.vega) = some ⟨none, some 0, 0, 1⟩
      ∧ (c8WSt.cache.map Prod.fst).Nodup
      ∧ mget (cleanupCache 7 c8WSt.cache) (getContentHash idHash "x" Lang.vega)
          = some ⟨none, some 0, 0, 1⟩
      ∧ c8WSt.comps[0]? = some ⟨getContentHash idHash "x" Lang.vega, Lang.vega, 0, false⟩)
    ∧ (mget ((lookup idHash c8WSt Lang.vega "x" 5).2).cache (getContentHash idHash "x" Lang.vega)
        = some ⟨none, some 0, 5, 2⟩
      ∧ mget c8WSt.cache (getContentHash idHash "x" Lang.vega) = some ⟨none, some 0, 0, 1⟩
      ∧ mget (settleWith c8WSt 0 "art" 9).cache (getContentHash idHash "x" Lang.vega)
          = some ⟨some "art", none, 9, 1⟩) :=
  ⟨⟨by decide, by decide, by decide, by decide⟩,
   ⟨(useCount_increments_on_read_resets_on_settle idHash c8WSt Lang.vega "x" 5
       ⟨none, some 0, 0, 1⟩ c8WSt.cache "unused" 0
       ⟨getContentHash idHash "x" Lang.vega, Lang.vega, 0, false⟩ "art").1 (by decide),
    by decide,
    (useCount_increments_on_read_resets_on_settle idHash c8WSt Lang.vega "x" 9
       ⟨none, some 0, 0, 1⟩ c8WSt.cache "unused" 0
       ⟨getContentHash idHash "x" Lang.vega, Lang.vega, 0, false⟩ "art").2.2
      (by decide) rfl⟩⟩

/-- C9: on every trace from the activation state, the number of
invocations of the refresh command equals the number of settled
computations — one notification per settled computation, independent of
how many callers observed the pending placeholder. -/
theorem refresh_fires_once_per_settled_computation (md5 : String → String) (evs : List Event) :
    (run md5 St.empty evs).refreshLog.length
      = ((run md5 St.empty evs).comps.filter (fun c => c.settled)).length := by
  rw [← List.countP_eq_length_filter]
  exact run_refresh_inv md5 evs St.empty rfl

/-- C10 (amended): for a fence token whose language is neither vega nor
vega-lite, the optimized fence rule returns exactly the default
renderer's output on the unchanged token and changes nothing; the
original variant also delegates to the default renderer, but only after
overwriting the token's info string with `json`. -/
theorem foreign_fence_default (md5 : String → String) (df : Token → String) (st : St)
    (df1 : Token → String) (st1 : StV1) (tok : Token) (now : Int) (parseOk : Bool)
    (msg : String)
    (h : ¬ (jsToLower (jsTrim tok.info) = "vega" ∨ jsToLower (jsTrim tok.info) = "vega-lite")) :
    fenceV2 md5 df st tok now = (df tok, tok, st)
    ∧ fenceV1 df1 st1 tok parseOk msg
        = (df1 { tok with info := "json" }, { tok with info := "json" }, st1) := by
  constructor
  · simp [fenceV2, h]
  · simp [fenceV1, h]

/-- C10 witness: on the python-tagged token, the optimized fence rule
returns the default output and the untouched token, while the original
variant hands the default renderer a token whose info string was
already overwritten. -/
theorem foreign_fence_default_witness :
    (¬ (jsToLower (jsTrim c10Tok.info) = "vega" ∨ jsToLower (jsTrim c10Tok.info) = "vega-lite"))
    ∧ fenceV2 idHash echoFence St.empty c10Tok 3 = (echoFence c10Tok, c10Tok, St.empty)
    ∧ fenceV1 echoFence ⟨[], [], []⟩ c10Tok true ""
        = (echoFence { c10Tok with info := "json" }, { c10Tok with info := "json" },
            (⟨[], [], []⟩ : StV1)) :=
  ⟨by decide,
   (foreign_fence_default idHash echoFence St.empty echoFence ⟨[], [], []⟩ c10Tok 3 true ""
     (by decide)).1,
   (foreign_fence_default idHash echoFence St.empty echoFence ⟨[], [], []⟩ c10Tok 3 true ""
     (by decide)).2⟩

/-- C10 counterexample: the original variant's fence rule mutates the
python-tagged token (its info string becomes `json`) and its output is
not the default renderer's output on the original token. -/
theorem foreign_token_mutated_in_original_variant :
    (fenceV1 echoFence ⟨[], [], []⟩ c10Tok true "").2.1 ≠ c10Tok
    ∧ (fenceV1 echoFence ⟨[], [], []⟩ c10Tok true "").2.1.info = "json"
    ∧ (fenceV1 echoFence ⟨[], [], []⟩ c10Tok true "").1 ≠ echoFence c10Tok := by
  decide

end Mvp
